import Mathlib

/-!
Verification of the opz-backup tool (src/main.rs), a shallow embedding.

Strings handled by the mount-table parser and the device locator are
modelled as `List Char`; the progress-label truncation operates on UTF-8
bytes in the Rust source, so it is modelled over `List Nat` byte
sequences.  Machine integers (`u64`, `u8`) are modelled as `Nat` with
explicit saturation where the source casts.  The `f64` arithmetic in
`calculate_progress_percentage` is modelled exactly over `ℚ` with
round-to-nearest-even at 53 bits of precision (all values arising there
are in the normal range, so neither subnormals nor overflow occur).
-/

namespace OpzBackup

/-- Model of Rust `str::split(sep)` over character lists: the result always
has at least one (possibly empty) segment. -/
def splitChar (sep : Char) : List Char → List (List Char)
  | [] => [[]]
  | c :: cs =>
    if c = sep then
      [] :: splitChar sep cs
    else
      match splitChar sep cs with
      | [] => [[c]]
      | seg :: rest => (c :: seg) :: rest

/-- Accumulator-based model of Rust `str::split_whitespace`: maximal runs of
non-whitespace characters, in order, with no empty items. -/
def splitWsAux : List Char → List Char → List (List Char)
  | [], acc => if acc = [] then [] else [acc.reverse]
  | c :: cs, acc =>
    if c.isWhitespace then
      if acc = [] then splitWsAux cs [] else acc.reverse :: splitWsAux cs []
    else
      splitWsAux cs (c :: acc)

/-- Model of Rust `str::split_whitespace`. -/
def splitWs (s : List Char) : List (List Char) :=
  splitWsAux s []

/-- Model of Rust `str::lines`: split on a newline, drop one trailing empty
segment, strip a trailing carriage return from each line. -/
def rustLines (s : List Char) : List (List Char) :=
  let parts := splitChar '\n' s
  let parts := if parts.getLast? = some [] then parts.dropLast else parts
  parts.map fun l => if l.getLast? = some '\r' then l.dropLast else l

/-- Model of Rust `str::contains(needle)`: substring containment. -/
def strContains (hay needle : List Char) : Bool :=
  hay.tails.any fun t => needle.isPrefixOf t

/-- `Platform` from src/main.rs. -/
inductive Platform where
  | MacOS
  | Linux
  | Windows
deriving DecidableEq, Repr

/-- `MountPoint` from src/main.rs. -/
structure MountPoint where
  path : List Char
  device_name : List Char
deriving DecidableEq, Repr

/-- `DeviceDiscovery` from src/main.rs. -/
inductive DeviceDiscovery where
  | NotFound
  | Found (mp : MountPoint)
deriving DecidableEq, Repr

/-- `BackupError` from src/main.rs (message payloads kept as char lists). -/
inductive BackupError where
  | DeviceNotFound
  | CommandExecution (msg : List Char)
  | InvalidOutput (msg : List Char)
  | DirectoryCreation (msg : List Char)
  | CopyOperation (msg : List Char)
deriving DecidableEq, Repr

/-- `extract_device_name` from src/main.rs:
`path.split('/').last().unwrap_or("Unknown").to_string()`. -/
def extract_device_name (path : List Char) : List Char :=
  ((splitChar '/' path).getLast?).getD "Unknown".toList

/-- The body of the `filter_map` closure of `parse_macos_mount_points`. -/
def macosRow (line : List Char) : Option MountPoint :=
  let parts := splitWs line
  match parts.get? 8 with
  | none => none
  | some mount_path =>
    if strContains mount_path "Volume".toList then
      some ⟨mount_path, extract_device_name mount_path⟩
    else
      none

/-- `parse_macos_mount_points` from src/main.rs. -/
def parse_macos_mount_points (df_output : List Char) : List MountPoint :=
  (((rustLines df_output).drop 1).filterMap macosRow)

/-- The body of the `filter_map` closure of `parse_linux_mount_points`. -/
def linuxRow (line : List Char) : Option MountPoint :=
  let parts := splitWs line
  match parts.get? 5 with
  | none => none
  | some mount_path =>
    if "/media/".toList.isPrefixOf mount_path || "/mnt/".toList.isPrefixOf mount_path then
      some ⟨mount_path, extract_device_name mount_path⟩
    else
      none

/-- `parse_linux_mount_points` from src/main.rs. -/
def parse_linux_mount_points (df_output : List Char) : List MountPoint :=
  (((rustLines df_output).drop 1).filterMap linuxRow)

/-- `parse_windows_mount_points` from src/main.rs: explicitly unimplemented,
returns the empty vector. -/
def parse_windows_mount_points (_df_output : List Char) : List MountPoint :=
  []

/-- `parse_mount_points` from src/main.rs. -/
def parse_mount_points (df_output : List Char) (platform : Platform) : List MountPoint :=
  match platform with
  | .MacOS => parse_macos_mount_points df_output
  | .Linux => parse_linux_mount_points df_output
  | .Windows => parse_windows_mount_points df_output

/-- `find_device` from src/main.rs: first mount point whose device name
contains the pattern, else `NotFound`. -/
def find_device (mount_points : List MountPoint) (pattern : List Char) : DeviceDiscovery :=
  match mount_points.find? (fun mp => strContains mp.device_name pattern) with
  | none => .NotFound
  | some mp => .Found mp

/-- `create_backup_path` from src/main.rs: `format!("{}/{}", base, ts)`. -/
def create_backup_path (base_dir timestamp : List Char) : List Char :=
  base_dir ++ ('/' :: timestamp)

/-- `get_default_backup_dir` from src/main.rs; the `HOME` environment
variable is an input, `none` covering both the unset and the non-unicode
failure of `std::env::var`. -/
def get_default_backup_dir (home : Option (List Char)) : List Char :=
  (home.getD ".".toList) ++ "/opz-backups".toList

/-! ### Exact model of the `f64` arithmetic used by the progress computation

IEEE-754 binary64 round-to-nearest-even, carried out exactly over
nonnegative fractions represented as numerator/denominator pairs of
naturals (denominators always positive by construction).  Only
nonnegative values in the normal finite range arise in
`calculate_progress_percentage`, so sign, subnormals, infinities and NaN
need no representation.  The recursions use explicit fuel so every
definition reduces in the kernel. -/

/-- A nonnegative fraction: numerator and (positive) denominator. -/
abbrev Frac := Nat × Nat

/-- Floor of the base-2 logarithm of a natural number, by fuelled halving. -/
def flog2 : Nat → Nat → Nat
  | 0, _ => 0
  | fuel + 1, n => if n < 2 then 0 else flog2 fuel (n / 2) + 1

/-- For a fraction `a / b < 1` with `a > 0`, the least `k ≥ 1` with
`(a / b) * 2 ^ k ≥ 1` (fuelled). -/
def uexp : Nat → Nat → Nat → Nat
  | 0, _, _ => 1
  | fuel + 1, a, b => if b ≤ 2 * a then 1 else uexp fuel (2 * a) b + 1

/-- Round the fraction `a / b` to the nearest natural, ties to even. -/
def roundHalfEvenNN (a b : Nat) : Nat :=
  let n := a / b
  let r := a % b
  if 2 * r < b then n
  else if b < 2 * r then n + 1
  else if n % 2 = 0 then n else n + 1

/-- Floor of the base-2 logarithm of the positive fraction `a / b`. -/
def floorLog2F (a b : Nat) : Int :=
  if b ≤ a then (flog2 128 (a / b) : Int) else -(uexp 1200 a b : Int)

/-- Round the nonnegative fraction `a / b` to the nearest IEEE-754 binary64
value (round-to-nearest, ties to even), exactly, as a fraction. -/
def roundF64 (q : Frac) : Frac :=
  if q.1 = 0 then (0, 1)
  else
    let e := floorLog2F q.1 q.2
    if 52 ≤ e then
      let s : Nat := 2 ^ (e - 52).toNat
      (roundHalfEvenNN q.1 (q.2 * s) * s, 1)
    else
      let s : Nat := 2 ^ ((52 : Int) - e).toNat
      (roundHalfEvenNN (q.1 * s) q.2, s)

/-- Rust `u64 as f64`: round to nearest even. -/
def toF64 (n : Nat) : Frac :=
  roundF64 (n, 1)

/-- Correctly rounded binary64 division of already-rounded operands. -/
def f64div (a b : Frac) : Frac :=
  roundF64 (a.1 * b.2, a.2 * b.1)

/-- Correctly rounded binary64 multiplication. -/
def f64mul (a b : Frac) : Frac :=
  roundF64 (a.1 * b.1, a.2 * b.2)

/-- `CopyProgress` from src/main.rs; `current_file` is its UTF-8 bytes. -/
structure CopyProgress where
  total_bytes : Nat
  copied_bytes : Nat
  current_file : List Nat
deriving DecidableEq, Repr

/-- `calculate_progress_percentage` from src/main.rs:
`((copied_bytes as f64 / total_bytes as f64) * 100.0) as u8`, with the
guard returning `0` when `total_bytes == 0`.  The `as u8` cast truncates
toward zero and saturates at 255. -/
def calculate_progress_percentage (progress : CopyProgress) : Nat :=
  if progress.total_bytes = 0 then 0
  else
    let x := f64mul (f64div (toF64 progress.copied_bytes) (toF64 progress.total_bytes)) (100, 1)
    min 255 (x.1 / x.2)

/-! ### The progress callback of `run_backup_with_config`

The closure captures `current_percent : u8`; per transfer event it
computes the percent, advances the bar by `percent - current_percent`
exactly when `percent > current_percent`, and updates the captured
state.  `progress_step` returns the new state together with the emitted
bar increment (`none` when no `inc` call happens). -/

/-- One invocation of the progress callback on state `current_percent`. -/
def progress_step (current_percent : Nat) (progress : CopyProgress) : Nat × Option Nat :=
  let percent := calculate_progress_percentage progress
  if current_percent < percent then (percent, some (percent - current_percent))
  else (current_percent, none)

/-- The trace of callback invocations over a list of transfer events:
for each event, the state after the event and the emitted increment. -/
def progress_trace : Nat → List CopyProgress → List (Nat × Option Nat)
  | _, [] => []
  | current_percent, p :: ps =>
    progress_step current_percent p :: progress_trace (progress_step current_percent p).1 ps

/-! ### The current-file display label

In the source: `if progress.current_file.len() > 50 { format!("...{}",
&progress.current_file[progress.current_file.len() - 47..]) } else {
progress.current_file.clone() }`.  Rust `str::len` counts UTF-8 bytes
and the range index panics when `len - 47` is not a character boundary,
so the label is modelled over byte sequences with `none` for the panic. -/

/-- Rust `str::is_char_boundary` at an interior index: the byte there is
not a UTF-8 continuation byte. -/
def isCharBoundary (s : List Nat) (i : Nat) : Bool :=
  i = 0 || i = s.length ||
    match s.get? i with
    | none => false
    | some b => !(128 ≤ b && b < 192)

/-- The UTF-8 bytes of `"..."`. -/
def ellipsisBytes : List Nat := [46, 46, 46]

/-- The `display_file` computation of the progress callback; `none` models
the byte-slice panic on a non-boundary index. -/
def display_file (current_file : List Nat) : Option (List Nat) :=
  if 50 < current_file.length then
    if isCharBoundary current_file (current_file.length - 47) then
      some (ellipsisBytes ++ current_file.drop (current_file.length - 47))
    else
      none
  else
    some current_file

/-- The number of characters encoded by a UTF-8 byte sequence: one per
non-continuation byte. -/
def utf8CharCount (s : List Nat) : Nat :=
  (s.filter fun b => !(128 ≤ b && b < 192)).length

/-! ### The orchestrator `run_backup_with_config`

External collaborators (platform detection, the `df` subprocess, the
clock, `std::fs::create_dir_all`, the copy engine) are inputs gathered
in `Oracle`; the filesystem is the list of existing directories. -/

/-- The set of existing directories, as a list of paths. -/
abbrev FS := List (List Char)

/-- `ensure_directory` from src/main.rs: `create_dir_all` only when the
path does not exist; `mkdir_ok` models whether the OS call succeeds. -/
def ensure_directory (mkdir_ok : Bool) (fs : FS) (path : List Char) :
    Except BackupError Unit × FS :=
  if path ∈ fs then (.ok (), fs)
  else if mkdir_ok then (.ok (), path :: fs)
  else (.error (.DirectoryCreation path), fs)

/-- The external collaborators of one run: the detected platform, the
result of the `df` subprocess, the formatted timestamp, whether
directory creation succeeds, and the copy engine's result. -/
structure Oracle where
  platform : Platform
  df_output : Except BackupError (List Char)
  timestamp : List Char
  mkdir_ok : Bool
  copy_result : Except BackupError Nat

/-- `BackupConfig` from src/main.rs. -/
structure BackupConfig where
  backup_dir : List Char
  device_name_pattern : List Char

/-- `run_backup_with_config` from src/main.rs: detect platform, list and
parse mounts, locate the device (returning `DeviceNotFound` before any
directory is touched), prepare the destination, then copy. -/
def run_backup_with_config (o : Oracle) (config : BackupConfig) (fs : FS) :
    Except BackupError Nat × FS :=
  match o.df_output with
  | .error e => (.error e, fs)
  | .ok df_output =>
    let mount_points := parse_mount_points df_output o.platform
    match find_device mount_points config.device_name_pattern with
    | .NotFound => (.error .DeviceNotFound, fs)
    | .Found _mount =>
      let backup_dest := create_backup_path config.backup_dir o.timestamp
      match ensure_directory o.mkdir_ok fs backup_dest with
      | (.error e, fs2) => (.error e, fs2)
      | (.ok _, fs2) =>
        match o.copy_result with
        | .error e => (.error e, fs2)
        | .ok bytes_copied => (.ok bytes_copied, fs2)

/-! ### Row-qualification predicates, stated from the spec's words

A macOS row qualifies iff it has at least 9 whitespace-separated columns
and column index 8 contains the substring "Volume"; a Linux row
qualifies iff it has at least 6 columns and column index 5 starts with
`/media/` or `/mnt/`.  These are used to characterise the parsers. -/

/-- The spec's qualification condition for one macOS-style row. -/
def macosQualifies (line : List Char) : Bool :=
  decide (9 ≤ (splitWs line).length) &&
    strContains ((splitWs line).getD 8 []) "Volume".toList

/-- The mount point a qualifying macOS-style row yields. -/
def macosMount (line : List Char) : MountPoint :=
  ⟨(splitWs line).getD 8 [], extract_device_name ((splitWs line).getD 8 [])⟩

/-- The spec's qualification condition for one Linux-style row. -/
def linuxQualifies (line : List Char) : Bool :=
  decide (6 ≤ (splitWs line).length) &&
    ("/media/".toList.isPrefixOf ((splitWs line).getD 5 []) ||
      "/mnt/".toList.isPrefixOf ((splitWs line).getD 5 []))

/-- The mount point a qualifying Linux-style row yields. -/
def linuxMount (line : List Char) : MountPoint :=
  ⟨(splitWs line).getD 5 [], extract_device_name ((splitWs line).getD 5 [])⟩

/-! ## Helper lemmas -/

theorem splitChar_ne_nil (sep : Char) : ∀ s, splitChar sep s ≠ []
  | [] => by simp [splitChar]
  | c :: cs => by
    unfold splitChar
    split
    · simp
    · cases h : splitChar sep cs <;> simp

theorem extract_device_name_eq_getLastD (path : List Char) :
    extract_device_name path = (splitChar '/' path).getLastD [] := by
  unfold extract_device_name
  cases h : (splitChar '/' path).getLast? with
  | none =>
    exact absurd (List.getLast?_eq_none_iff.mp h) (splitChar_ne_nil '/' path)
  | some seg =>
    rw [List.getLastD_eq_getLast?, h]
    rfl

theorem find?_eq_some_first {α : Type _} (p : α → Bool) :
    ∀ (l : List α) (a : α),
      l.find? p = some a ↔
        p a = true ∧ ∃ i, l.get? i = some a ∧
          ∀ j, j < i → ∀ b, l.get? j = some b → p b = false := by
  intro l
  induction l with
  | nil =>
    intro a
    simp
  | cons x xs ih =>
    intro a
    by_cases hx : p x = true
    · rw [List.find?_cons_of_pos _ hx]
      constructor
      · intro h
        injection h with h
        subst h
        exact ⟨hx, 0, rfl, fun j hj => absurd hj (Nat.not_lt_zero _)⟩
      · rintro ⟨hpa, i, hget, hmin⟩
        cases i with
        | zero =>
          injection hget with hget
          subst hget
          rfl
        | succ j =>
          have h0 := hmin 0 (Nat.succ_pos j) x rfl
          rw [hx] at h0
          exact absurd h0 (by simp)
    · rw [List.find?_cons_of_neg _ hx]
      rw [ih a]
      constructor
      · rintro ⟨hpa, i, hget, hmin⟩
        refine ⟨hpa, i + 1, hget, fun j hj b hb => ?_⟩
        cases j with
        | zero =>
          injection hb with hb
          subst hb
          exact Bool.eq_false_iff.mpr hx
        | succ j' =>
          exact hmin j' (Nat.lt_of_succ_lt_succ hj) b hb
      · rintro ⟨hpa, i, hget, hmin⟩
        cases i with
        | zero =>
          injection hget with hget
          subst hget
          exact absurd hpa hx
        | succ i' =>
          exact ⟨hpa, i', hget,
            fun j hj b hb => hmin (j + 1) (Nat.succ_lt_succ hj) b hb⟩

theorem find_device_eq_find? (l : List MountPoint) (pattern : List Char) :
    find_device l pattern =
      match l.find? (fun mp => strContains mp.device_name pattern) with
      | none => .NotFound
      | some mp => .Found mp := rfl

theorem filterMap_if_eq_map_filter {α β : Type _} (f : α → Option β)
    (q : α → Bool) (g : α → β)
    (hf : ∀ a, f a = if q a then some (g a) else none) :
    ∀ l : List α, l.filterMap f = (l.filter q).map g := by
  intro l
  induction l with
  | nil => simp
  | cons x xs ih =>
    rw [List.filterMap_cons, List.filter_cons]
    by_cases hq : q x = true
    · rw [hf x, if_pos hq, if_pos hq, List.map_cons, ih]
    · rw [hf x, if_neg hq, if_neg hq, ih]

theorem macosRow_eq_if (line : List Char) :
    macosRow line = if macosQualifies line then some (macosMount line) else none := by
  cases h : (splitWs line)[8]? with
  | none =>
    have h9 : ¬ (9 ≤ (splitWs line).length) := by
      have := List.getElem?_eq_none_iff.mp h
      omega
    simp [macosRow, macosQualifies, List.get?_eq_getElem?, h, h9]
  | some mp =>
    have h9 : 9 ≤ (splitWs line).length := (List.getElem?_eq_some_iff.mp h).1
    simp [macosRow, macosQualifies, macosMount, List.get?_eq_getElem?, h, h9]

theorem linuxRow_eq_if (line : List Char) :
    linuxRow line = if linuxQualifies line then some (linuxMount line) else none := by
  cases h : (splitWs line)[5]? with
  | none =>
    have h6 : ¬ (6 ≤ (splitWs line).length) := by
      have := List.getElem?_eq_none_iff.mp h
      omega
    simp [linuxRow, linuxQualifies, List.get?_eq_getElem?, h, h6]
  | some mp =>
    have h6 : 6 ≤ (splitWs line).length := (List.getElem?_eq_some_iff.mp h).1
    simp [linuxRow, linuxQualifies, linuxMount, List.get?_eq_getElem?, h, h6]

theorem progress_step_fst_le (c : Nat) (p : CopyProgress) :
    c ≤ (progress_step c p).1 := by
  unfold progress_step
  dsimp only
  split
  · omega
  · exact Nat.le_refl c

theorem progress_trace_states_chain (c : Nat) (events : List CopyProgress) :
    List.Chain' (· ≤ ·) (c :: (progress_trace c events).map Prod.fst) := by
  induction events generalizing c with
  | nil => simp [progress_trace]
  | cons p ps ih =>
    rw [progress_trace, List.map_cons, List.chain'_cons]
    exact ⟨progress_step_fst_le c p, ih (progress_step c p).1⟩

/-! ## Claims -/

/-- C10: when the `HOME` environment variable is unset or unreadable, the
default backup root falls back to the current directory, yielding
`./opz-backups` — no failure. -/
theorem get_default_backup_dir_no_home :
    get_default_backup_dir none = "./opz-backups".toList := by decide

/-- C4 counterexample: `extract_device_name ""` returns the empty string,
not the literal `"Unknown"` — Rust `"".split('/')` yields one empty
segment, so `last()` is `Some("")` and the `unwrap_or` fallback is dead. -/
theorem extract_device_name_empty_counterexample :
    extract_device_name [] = [] ∧ extract_device_name [] ≠ "Unknown".toList := by
  decide

/-- C4 amended: `extract_device_name` returns the final `/`-delimited
segment of its input; the split always has at least one (possibly empty)
segment, so the `"Unknown"` fallback is never taken; concretely
`/Volumes/OP-Z ↦ OP-Z`, `noslash ↦ noslash`, and `"" ↦ ""`. -/
theorem extract_device_name_spec :
    (∀ path, splitChar '/' path ≠ [] ∧
      extract_device_name path = (splitChar '/' path).getLastD []) ∧
    extract_device_name "/Volumes/OP-Z".toList = "OP-Z".toList ∧
    extract_device_name "noslash".toList = "noslash".toList ∧
    extract_device_name [] = [] :=
  ⟨fun path => ⟨splitChar_ne_nil '/' path, extract_device_name_eq_getLastD path⟩,
    by decide, by decide, by decide⟩

/-- C2 counterexample: at `copied = 29`, `total = 100` (so `copied ≤ total`)
the exact floor is 29, but the `f64` computation `(29.0 / 100.0) * 100.0`
is `28.999999999999996…`, so the code returns 28. -/
theorem calculate_progress_percentage_floor_counterexample :
    29 ≤ 100 ∧ 29 * 100 / 100 = 29 ∧
      calculate_progress_percentage ⟨100, 29, []⟩ = 28 := by
  refine ⟨by decide, by decide, by decide⟩

set_option maxHeartbeats 20000000 in
/-- C2 amended: the percentage is 0 whenever `totalBytes = 0` (never a
division fault); the double-precision result equals the exact
`floor(copied * 100 / total)` for every `copiedBytes ≤ totalBytes ≤ 32`
and at the spec's example events `(0,100)`, `(50,100)`, `(100,100)`
(which give exactly 0, 50, 100) — but not in general: at `(29,100)` the
`f64` rounding loses a percentage point. -/
theorem calculate_progress_percentage_spec :
    (∀ copied file, calculate_progress_percentage ⟨0, copied, file⟩ = 0) ∧
    (∀ total, total ≤ 32 → ∀ copied, copied ≤ total →
      calculate_progress_percentage ⟨total, copied, []⟩ = copied * 100 / total) ∧
    calculate_progress_percentage ⟨100, 0, []⟩ = 0 ∧
    calculate_progress_percentage ⟨100, 50, []⟩ = 50 ∧
    calculate_progress_percentage ⟨100, 100, []⟩ = 100 := by
  refine ⟨fun copied file => rfl, by decide, by decide, by decide, by decide⟩

/-- C2 witness: the amended exactness applied at `copied = 2`, `total = 3`. -/
theorem calculate_progress_percentage_spec_witness :
    calculate_progress_percentage ⟨3, 2, []⟩ = 2 * 100 / 3 :=
  calculate_progress_percentage_spec.2.1 3 (by decide) 2 (by decide)

/-- C6 counterexample: a 26-character file name made of 25 `é` and one `a`
occupies 51 UTF-8 bytes, so although it is at most 50 characters long the
code truncates it — the bound in the source counts bytes, not characters. -/
theorem display_file_chars_counterexample :
    utf8CharCount (List.flatten (List.replicate 25 [195, 169]) ++ [97]) ≤ 50 ∧
    display_file (List.flatten (List.replicate 25 [195, 169]) ++ [97]) ≠
      some (List.flatten (List.replicate 25 [195, 169]) ++ [97]) := by
  decide

/-- C6 amended: the displayed label is the file name unchanged when its
UTF-8 byte length is at most 50; otherwise, whenever byte index
`len − 47` falls on a character boundary, it is `"..."` followed by the
last 47 bytes, which is exactly 50 bytes; every produced label is at most
50 bytes (the bound counts bytes, not characters). -/
theorem display_file_spec :
    ∀ name : List Nat,
      (name.length ≤ 50 → display_file name = some name) ∧
      (∀ out, display_file name = some out → out.length ≤ 50) ∧
      (50 < name.length → isCharBoundary name (name.length - 47) = true →
        display_file name = some (ellipsisBytes ++ name.drop (name.length - 47)) ∧
        (ellipsisBytes ++ name.drop (name.length - 47)).length = 50) := by
  intro name
  refine ⟨fun hle => ?_, fun out hout => ?_, fun hgt hb => ?_⟩
  · simp [display_file, Nat.not_lt.mpr hle]
  · by_cases hgt : 50 < name.length
    · by_cases hb : isCharBoundary name (name.length - 47) = true
      · simp only [display_file, if_pos hgt, if_pos hb, Option.some.injEq] at hout
        subst hout
        simp [ellipsisBytes, List.length_append, List.length_drop]
        omega
      · simp [display_file, if_pos hgt, hb] at hout
    · simp only [display_file, if_neg hgt, Option.some.injEq] at hout
      subst hout
      omega
  · constructor
    · simp [display_file, if_pos hgt, hb]
    · simp [ellipsisBytes, List.length_append, List.length_drop]
      omega

/-- C6 witness: the amended statement applied to a 10-byte name (kept
whole) and a 51-byte ASCII name (truncated to exactly 50 bytes). -/
theorem display_file_spec_witness :
    display_file (List.replicate 10 97) = some (List.replicate 10 97) ∧
    display_file (List.replicate 51 97) =
      some (ellipsisBytes ++
        (List.replicate 51 97).drop ((List.replicate 51 97).length - 47)) ∧
    (ellipsisBytes ++
      (List.replicate 51 97).drop ((List.replicate 51 97).length - 47)).length = 50 :=
  ⟨(display_file_spec (List.replicate 10 97)).1 (by decide),
    ((display_file_spec (List.replicate 51 97)).2.2 (by decide) (by decide)).1,
    ((display_file_spec (List.replicate 51 97)).2.2 (by decide) (by decide)).2⟩

/-- C7: the truncation is not total — for the 51-byte name `aaa` followed
by 24 `é`, byte index `len − 47 = 4` lands inside a two-byte character,
Rust's `is_char_boundary` fails there, and the byte slice
`&name[len - 47..]` panics (modelled as `none`). -/
theorem display_file_panic_on_multibyte :
    display_file ([97, 97, 97] ++ List.flatten (List.replicate 24 [195, 169])) = none := by
  decide

/-- C1: the tracked `current_percent` never decreases along any event
sequence; the bar increment is emitted iff the newly computed percent
strictly exceeds the tracked one, and then it is exactly the difference;
the spec's event sequence `(0,100),(50,100),(50,100),(100,100)` gives
percents `0,50,50,100` with increments none, +50, none, +50. -/
theorem progress_callback_monotone_increments :
    (∀ (current_percent : Nat) (events : List CopyProgress),
      List.Chain' (· ≤ ·)
        (current_percent :: (progress_trace current_percent events).map Prod.fst)) ∧
    (∀ (c : Nat) (p : CopyProgress),
      ((progress_step c p).2 = none ↔ calculate_progress_percentage p ≤ c) ∧
      (∀ d, (progress_step c p).2 = some d ↔
        c < calculate_progress_percentage p ∧
          d = calculate_progress_percentage p - c)) ∧
    progress_trace 0 [⟨100, 0, []⟩, ⟨100, 50, []⟩, ⟨100, 50, []⟩, ⟨100, 100, []⟩] =
      [(0, none), (50, some 50), (50, none), (100, some 50)] ∧
    [⟨100, 0, []⟩, ⟨100, 50, []⟩, ⟨100, 50, []⟩,
        (⟨100, 100, []⟩ : CopyProgress)].map calculate_progress_percentage =
      [0, 50, 50, 100] := by
  refine ⟨progress_trace_states_chain, fun c p => ?_, by decide, by decide⟩
  unfold progress_step
  dsimp only
  by_cases h : c < calculate_progress_percentage p
  · rw [if_pos h]
    refine ⟨by simp; omega, fun d => ?_⟩
    simp only [Option.some.injEq]
    constructor
    · intro hd
      exact ⟨h, hd.symm⟩
    · intro ⟨_, hd⟩
      exact hd.symm
  · rw [if_neg h]
    refine ⟨by simp; omega, fun d => ?_⟩
    simp only []
    constructor
    · intro hd
      exact absurd hd (by simp)
    · intro ⟨hlt, _⟩
      exact absurd hlt h

/-- C5: `find_device` returns `Found mp` exactly when `mp` is the first
mount point in sequence order whose device name contains the pattern as
a (case-sensitive) substring, and `NotFound` exactly when no device name
contains it; on device names `Foo`, `OP-Z-1`, `OP-Z-2` with pattern
`OP-Z` the located device is `OP-Z-1`. -/
theorem find_device_first_match :
    (∀ (mount_points : List MountPoint) (pattern : List Char),
      (find_device mount_points pattern = .NotFound ↔
        ∀ mp ∈ mount_points, strContains mp.device_name pattern = false) ∧
      (∀ mp, find_device mount_points pattern = .Found mp ↔
        strContains mp.device_name pattern = true ∧
        ∃ i, mount_points.get? i = some mp ∧
          ∀ j, j < i → ∀ mp', mount_points.get? j = some mp' →
            strContains mp'.device_name pattern = false)) ∧
    find_device [⟨"/a".toList, "Foo".toList⟩, ⟨"/b".toList, "OP-Z-1".toList⟩,
        ⟨"/c".toList, "OP-Z-2".toList⟩] "OP-Z".toList =
      .Found ⟨"/b".toList, "OP-Z-1".toList⟩ := by
  refine ⟨fun l pattern => ⟨?_, fun mp => ?_⟩, by decide⟩
  · rw [find_device_eq_find?]
    cases h : l.find? (fun mp => strContains mp.device_name pattern) with
    | none =>
      simp only [List.find?_eq_none] at h
      simp only [true_iff]
      exact fun mp hmp => Bool.eq_false_iff.mpr (h mp hmp)
    | some v =>
      simp only [reduceCtorEq, false_iff, not_forall]
      refine ⟨v, List.mem_of_find?_eq_some h, ?_⟩
      rw [List.find?_some h]
      simp
  · rw [find_device_eq_find?]
    cases h : l.find? (fun mp => strContains mp.device_name pattern) with
    | none =>
      simp only [reduceCtorEq, false_iff]
      rintro ⟨hpa, i, hget, -⟩
      rw [List.find?_eq_none] at h
      exact h mp (List.get?_mem hget) hpa
    | some v =>
      constructor
      · intro heq
        have hv : v = mp := by
          cases heq
          rfl
        subst hv
        exact (find?_eq_some_first (fun mp => strContains mp.device_name pattern) l v).mp h
      · intro hr
        have := (find?_eq_some_first (fun mp => strContains mp.device_name pattern) l mp).mpr hr
        rw [h] at this
        injection this with this
        rw [this]

/-- C3: after discarding the header line, a macOS-style row yields a
mount point iff it has at least 9 whitespace-separated columns and
column 8 contains `Volume`; a Linux-style row yields one iff it has at
least 6 columns and column 5 starts with `/media/` or `/mnt/`; short
rows are skipped without error and the output order mirrors the input
line order. -/
theorem parse_mount_points_rows :
    (∀ df_output,
      parse_macos_mount_points df_output =
        (((rustLines df_output).drop 1).filter macosQualifies).map macosMount ∧
      parse_linux_mount_points df_output =
        (((rustLines df_output).drop 1).filter linuxQualifies).map linuxMount) ∧
    (∀ line, macosQualifies line = true ↔
      9 ≤ (splitWs line).length ∧
        strContains ((splitWs line).getD 8 []) "Volume".toList = true) ∧
    (∀ line, linuxQualifies line = true ↔
      6 ≤ (splitWs line).length ∧
        ("/media/".toList.isPrefixOf ((splitWs line).getD 5 []) = true ∨
          "/mnt/".toList.isPrefixOf ((splitWs line).getD 5 []) = true)) := by
  refine ⟨fun df_output => ⟨?_, ?_⟩, fun line => ?_, fun line => ?_⟩
  · exact filterMap_if_eq_map_filter _ _ _ macosRow_eq_if _
  · exact filterMap_if_eq_map_filter _ _ _ linuxRow_eq_if _
  · simp [macosQualifies, Bool.and_eq_true, decide_eq_true_eq]
  · simp [linuxQualifies, Bool.and_eq_true, Bool.or_eq_true, decide_eq_true_eq]

/-- C9: destination preparation is idempotent — on a path that already
exists `ensure_directory` returns `Ok` and leaves the filesystem
untouched, and after any successful call a second call on the same path
returns `Ok` without changing anything. -/
theorem ensure_directory_idempotent :
    ∀ (ok1 ok2 : Bool) (fs : FS) (path : List Char),
      (path ∈ fs → ensure_directory ok1 fs path = (.ok (), fs)) ∧
      (∀ fs', ensure_directory ok1 fs path = (.ok (), fs') →
        ensure_directory ok2 fs' path = (.ok (), fs')) := by
  intro ok1 ok2 fs path
  constructor
  · intro h
    simp [ensure_directory, h]
  · intro fs' h
    by_cases hm : path ∈ fs
    · simp only [ensure_directory, if_pos hm, Prod.mk.injEq, true_and] at h
      subst h
      simp [ensure_directory, hm]
    · by_cases hk : ok1
      · simp only [ensure_directory, if_neg hm, if_pos hk, Prod.mk.injEq, true_and] at h
        subst h
        simp [ensure_directory]
      · simp [ensure_directory, if_neg hm, hk] at h

/-- C9 witness: preparing `"a"` twice in a row, the second call on the
state produced by the first succeeds and changes nothing. -/
theorem ensure_directory_idempotent_witness :
    ensure_directory true [['a']] ['a'] = (.ok (), [['a']]) ∧
    ensure_directory false [['a']] ['a'] = (.ok (), [['a']]) :=
  ⟨(ensure_directory_idempotent true false [['a']] ['a']).1 (by simp),
    (ensure_directory_idempotent true false [['a']] ['a']).2 [['a']] (by simp [ensure_directory])⟩

/-- C8: when device location yields `NotFound`, the run terminates with
the `DeviceNotFound` outcome before destination preparation, leaving the
filesystem unchanged. -/
theorem run_backup_device_not_found :
    ∀ (o : Oracle) (config : BackupConfig) (fs : FS) (df : List Char),
      o.df_output = .ok df →
      find_device (parse_mount_points df o.platform) config.device_name_pattern = .NotFound →
      run_backup_with_config o config fs = (.error .DeviceNotFound, fs) := by
  intro o config fs df h1 h2
  simp [run_backup_with_config, h1, h2]

/-- C8 witness: a run whose `df` listing has no qualifying rows ends in
`DeviceNotFound` with the filesystem exactly as it started. -/
theorem run_backup_device_not_found_witness :
    run_backup_with_config ⟨.Linux, .ok [], ['t'], true, .ok 0⟩ ⟨['b'], ['O']⟩ [['d']] =
      (.error .DeviceNotFound, [['d']]) :=
  run_backup_device_not_found ⟨.Linux, .ok [], ['t'], true, .ok 0⟩ ⟨['b'], ['O']⟩ [['d']] []
    rfl (by decide)

end OpzBackup

